import Mathlib

/-!
Shallow embedding of the mixed-language translation assistant
(`language_detector.py`, `model_handler.py`, `language_config.py`).

Strings are modelled as `List Char`; Python float literals (0.25, 0.02,
0.55, 0.7, -999) are modelled exactly as rationals; a Python function that
can raise an exception is modelled with `Option` (`none` = raised).
The external black boxes (the `langdetect.detect` statistical identifier
and the seq2seq translation engine) are parameters of the definitions.
-/

namespace MLT

abbrev Str := List Char

/-- Whitespace per Python's `str.isspace` / the Unicode regex class `\s`:
U+0009..U+000D, U+001C..U+001F, space, U+0085, U+00A0, U+1680,
U+2000..U+200A, U+2028, U+2029, U+202F, U+205F, U+3000. -/
def pyIsSpace (c : Char) : Bool :=
  decide ((0x09 ≤ c.toNat ∧ c.toNat ≤ 0x0D) ∨ (0x1C ≤ c.toNat ∧ c.toNat ≤ 0x1F) ∨
    c.toNat = 0x20 ∨ c.toNat = 0x85 ∨ c.toNat = 0xA0 ∨ c.toNat = 0x1680 ∨
    (0x2000 ≤ c.toNat ∧ c.toNat ≤ 0x200A) ∨ c.toNat = 0x2028 ∨ c.toNat = 0x2029 ∨
    c.toNat = 0x202F ∨ c.toNat = 0x205F ∨ c.toNat = 0x3000)

/-- Code-point ranges of Python's Unicode word characters `\w` (letters,
digits, underscore), restricted to the Unicode blocks this program
distinguishes: ASCII, Latin-1/Latin Extended, Greek, Cyrillic, Hebrew,
Arabic (letters and digits, excluding punctuation such as U+061F `؟` and
combining marks), Devanagari, Thai, kana, Hangul syllables and CJK Han. -/
def wordRanges : List (Nat × Nat) :=
  [(0x30, 0x39), (0x41, 0x5A), (0x5F, 0x5F), (0x61, 0x7A),
   (0xC0, 0xD6), (0xD8, 0xF6), (0xF8, 0x24F),
   (0x386, 0x386), (0x388, 0x3FF),
   (0x400, 0x481), (0x48A, 0x4FF),
   (0x5D0, 0x5EA),
   (0x620, 0x64A), (0x660, 0x669), (0x66E, 0x6D3), (0x6F0, 0x6FF),
   (0x904, 0x939), (0x958, 0x961), (0x966, 0x96F),
   (0xE01, 0xE3A), (0xE40, 0xE4E),
   (0x3041, 0x3096), (0x30A1, 0x30FA), (0x30FC, 0x30FE),
   (0x4E00, 0x9FFF),
   (0xAC00, 0xD7A3)]

def pyIsWordChar (c : Char) : Bool :=
  wordRanges.any fun r => decide (r.1 ≤ c.toNat ∧ c.toNat ≤ r.2)

/-- Character class used by the tokenizer regex `\w+|[^\w\s]+|\s+`:
0 = word character, 1 = whitespace, 2 = other (punctuation). -/
def charClass (c : Char) : Nat :=
  if pyIsWordChar c then 0 else if pyIsSpace c then 1 else 2

/-- Maximal runs of characters with equal key `f`, in order. -/
def chunksBy (f : Char → Nat) : Str → List Str
  | [] => []
  | c :: rest =>
    match chunksBy f rest with
    | [] => [[c]]
    | [] :: more => [c] :: more
    | (d :: ds) :: more =>
      if f c = f d then (c :: d :: ds) :: more else [c] :: (d :: ds) :: more

/-- Tokenization `re.findall(r"\w+|[^\w\s]+|\s+", text)`: since the three
classes partition the characters, this is the list of maximal same-class
runs. -/
def tokenize (text : Str) : List Str := chunksBy charClass text

/-- Python `text.split()`: maximal non-whitespace runs. -/
def pySplit (text : Str) : List Str :=
  (chunksBy (fun c => if pyIsSpace c then 1 else 0) text).filter
    fun w => match w with | [] => false | c :: _ => !(pyIsSpace c)

/-- Python `text.strip()`. -/
def pyStrip (text : Str) : Str :=
  ((text.dropWhile pyIsSpace).reverse.dropWhile pyIsSpace).reverse

/-- The function `normalize` of model_handler.py:
`re.sub(r"\s+", " ", text).strip()`, i.e. collapse every whitespace run to
one space and trim the ends, which equals `" ".join(text.split())`. -/
def normalize (text : Str) : Str := List.intercalate [' '] (pySplit text)

/-- The registry `LANGUAGES` of language_config.py (display name, code). -/
def LANGUAGES : List (String × String) :=
  [("Arabic", "arb_Arab"), ("English", "eng_Latn"), ("Spanish", "spa_Latn"),
   ("French", "fra_Latn"), ("German", "deu_Latn"), ("Italian", "ita_Latn"),
   ("Portuguese", "por_Latn"), ("Russian", "rus_Cyrl"),
   ("Chinese (Simplified)", "zho_Hans"), ("Chinese (Traditional)", "zho_Hant"),
   ("Japanese", "jpn_Jpan"), ("Korean", "kor_Hang"), ("Hindi", "hin_Deva"),
   ("Bengali", "ben_Beng"), ("Urdu", "urd_Arab"), ("Vietnamese", "vie_Latn"),
   ("Thai", "tha_Thai"), ("Indonesian", "ind_Latn"), ("Malay", "zsm_Latn"),
   ("Tamil", "tam_Taml"), ("Telugu", "tel_Telu"), ("Turkish", "tur_Latn"),
   ("Dutch", "nld_Latn"), ("Polish", "pol_Latn"), ("Swedish", "swe_Latn"),
   ("Greek", "ell_Grek"), ("Czech", "ces_Latn"), ("Romanian", "ron_Latn"),
   ("Hungarian", "hun_Latn"), ("Ukrainian", "ukr_Cyrl"), ("Danish", "dan_Latn"),
   ("Finnish", "fin_Latn"), ("Norwegian", "nob_Latn"), ("Persian", "pes_Arab"),
   ("Hebrew", "heb_Hebr"), ("Swahili", "swh_Latn"), ("Amharic", "amh_Ethi"),
   ("Hausa", "hau_Latn"), ("Yoruba", "yor_Latn"), ("Somali", "som_Latn"),
   ("Catalan", "cat_Latn"), ("Slovak", "slk_Latn"), ("Bulgarian", "bul_Cyrl"),
   ("Croatian", "hrv_Latn"), ("Serbian", "srp_Cyrl"), ("Lithuanian", "lit_Latn"),
   ("Latvian", "lvs_Latn"), ("Estonian", "est_Latn"), ("Slovenian", "slv_Latn")]

/-- ASCII Latin letter, the regex class `[A-Za-z]`. -/
def isAsciiAlpha (c : Char) : Bool :=
  decide ((0x41 ≤ c.toNat ∧ c.toNat ≤ 0x5A) ∨ (0x61 ≤ c.toNat ∧ c.toNat ≤ 0x7A))

/-- Number of characters of `text` with code point in `[lo, hi]`:
`len(re.findall(r"[\x5Clo-\x5Chi]", text))` for a one-character class. -/
def countRange (lo hi : Nat) (text : Str) : Nat :=
  (text.filter fun c => decide (lo ≤ c.toNat ∧ c.toNat ≤ hi)).length

/-- Number of `[A-Za-z]` characters of `text` (`LATIN_RE.findall`). -/
def countLatin (text : Str) : Nat := (text.filter isAsciiAlpha).length

def arabTargets : List String := ["arb_Arab", "pes_Arab", "urd_Arab"]

def latinTargets : List String :=
  ["eng_Latn", "fra_Latn", "spa_Latn", "deu_Latn", "ita_Latn", "por_Latn",
   "tur_Latn", "nld_Latn"]

def cyrTargets : List String := ["rus_Cyrl", "ukr_Cyrl", "bul_Cyrl"]

def cjkTargets : List String := ["zho_Hans", "zho_Hant", "jpn_Jpan", "kor_Hang"]

/-- The function `count_leftover_scripts` of model_handler.py.  The script
counters are `ARABIC_RE = [؀-ۿ]`, `LATIN_RE = [A-Za-z]`,
`CYRILLIC_RE = [Ѐ-ӿ]`, `CJK_RE = [一-鿿]`. -/
def count_leftover_scripts (text : Str) (target_lang_code : String) : Nat :=
  if text = [] then 999
  else
    let arabic := countRange 0x600 0x6FF text
    let latin := countLatin text
    let cyr := countRange 0x400 0x4FF text
    let cjk := countRange 0x4E00 0x9FFF text
    if target_lang_code ∈ arabTargets then latin + cyr + cjk
    else if target_lang_code ∈ latinTargets then arabic + cyr + cjk
    else if target_lang_code ∈ cyrTargets then latin + arabic + cjk
    else if target_lang_code ∈ cjkTargets then latin + arabic + cyr
    else latin + arabic

/-- Sentence terminators `".!?؟"` of model_handler.py. -/
def terminators : Str := ['.', '!', '?', '؟']

/-- The function `score_translation` of model_handler.py.  Python indexes
`translation[-1]` after normalization: on a non-empty translation whose
normalization is empty this raises IndexError, modelled by `none`. -/
def score_translation (source translation : Str) (target_lang_code : String) :
    Option ℚ :=
  if translation = [] then some (-999)
  else
    let s := normalize source
    let t := normalize translation
    match t.getLast? with
    | none => none
    | some last =>
      let ratio : ℚ := (t.length : ℚ) / (max s.length 1 : ℚ)
      let end_bonus : ℚ := if last ∈ terminators then 1/4 else 0
      let leftover := count_leftover_scripts t target_lang_code
      let leftover_penalty : ℚ := (leftover : ℚ) * (2/100)
      let short_penalty : ℚ := if ratio < 55/100 then 7/10 else 0
      some ((ratio + end_bonus) - (leftover_penalty + short_penalty))

/-- The table `MAP` of LanguageDetector: langdetect short codes to tags. -/
def MAP : List (String × String) :=
  [("ar", "arb_Arab"), ("en", "eng_Latn"), ("fr", "fra_Latn"),
   ("es", "spa_Latn"), ("de", "deu_Latn"), ("it", "ita_Latn"),
   ("pt", "por_Latn"), ("ru", "rus_Cyrl"), ("tr", "tur_Latn"),
   ("nl", "nld_Latn"), ("pl", "pol_Latn"), ("sv", "swe_Latn"),
   ("id", "ind_Latn"), ("vi", "vie_Latn")]

/-- The tables `SCRIPT_PATTERNS` / `SCRIPT_DEFAULT` of LanguageDetector,
combined in the iteration order of `detect_by_script`. -/
def scriptTable : List (List (Nat × Nat) × String) :=
  [([(0x600, 0x6FF), (0x750, 0x77F), (0x8A0, 0x8FF)], "arb_Arab"),
   ([(0x400, 0x4FF)], "rus_Cyrl"),
   ([(0x370, 0x3FF)], "ell_Grek"),
   ([(0x590, 0x5FF)], "heb_Hebr"),
   ([(0xE00, 0xE7F)], "tha_Thai"),
   ([(0x900, 0x97F)], "hin_Deva"),
   ([(0xAC00, 0xD7AF)], "kor_Hang"),
   ([(0x3040, 0x30FF)], "jpn_Jpan"),
   ([(0x4E00, 0x9FFF)], "zho_Hans")]

def inAnyRange (rs : List (Nat × Nat)) (c : Char) : Bool :=
  rs.any fun r => decide (r.1 ≤ c.toNat ∧ c.toNat ≤ r.2)

/-- The method `LanguageDetector.detect_by_script`: first script whose
pattern `.search` finds a character of the token. -/
def detect_by_script (token : Str) : Option String :=
  (scriptTable.find? fun e => token.any (inAnyRange e.1)).map Prod.snd

/-- The regex test `re.fullmatch(r"[A-Za-z]+", token)`. -/
def fullLatin (token : Str) : Bool :=
  decide (token ≠ []) && token.all isAsciiAlpha

/-- The method `LanguageDetector.detect_language`.  `avail` models
`LANGDETECT_AVAILABLE`; `ident` models `langdetect.detect`, with `none`
standing for a raised exception. -/
def detect_language (avail : Bool) (ident : Str → Option String)
    (token : Str) (fallback : String) : String :=
  let t := pyStrip token
  if t = [] then fallback
  else
    match detect_by_script t with
    | some script_lang => script_lang
    | none =>
      if fullLatin t ∧ t.length ≤ 3 then fallback
      else if avail ∧ 4 ≤ t.length then
        match ident t with
        | some code => (MAP.lookup code).getD fallback
        | none => fallback
      else fallback

/-- Python `tok.isspace()`. -/
def isSpaceTok (t : Str) : Bool := decide (t ≠ []) && t.all pyIsSpace

/-- The regex test `re.fullmatch(r"[^\w\s]+", tok)`. -/
def isPunctTok (t : Str) : Bool :=
  decide (t ≠ []) && t.all fun c => decide (charClass c = 2)

/-- Result dictionary of `LanguageDetector.analyze_words`. -/
structure Analysis where
  words : List (Str × String)
  languages_detected : List String
  languages_count : Nat
deriving DecidableEq

/-- Tagging loop of `analyze_words`: skip whitespace tokens, tag
punctuation runs with `"punct"`, tag word runs with `detect_language`
and roll the context language. -/
def tagTokens (avail : Bool) (ident : Str → Option String) :
    List Str → String → List (Str × String)
  | [], _ => []
  | tok :: rest, ctx =>
    if isSpaceTok tok then tagTokens avail ident rest ctx
    else if isPunctTok tok then (tok, "punct") :: tagTokens avail ident rest ctx
    else
      let lang := detect_language avail ident tok ctx
      (tok, lang) :: tagTokens avail ident rest lang

/-- First-occurrence deduplication, Python `list(dict.fromkeys(l))` and
also `list(Counter(l).keys())`. -/
def pyDedupAux : List String → List String → List String
  | _, [] => []
  | seen, a :: l =>
    if a ∈ seen then pyDedupAux seen l else a :: pyDedupAux (a :: seen) l

def pyDedup (l : List String) : List String := pyDedupAux [] l

/-- The comprehension `[lang for _, lang in words if lang != "punct"]`
of `analyze_words`. -/
def taggedLangs (words : List (Str × String)) : List String :=
  (words.filter fun p => decide (p.2 ≠ "punct")).map Prod.snd

/-- The method `LanguageDetector.analyze_words`. -/
def analyze_words (avail : Bool) (ident : Str → Option String)
    (text : Str) : Analysis :=
  if pyStrip text = [] then ⟨[], [], 0⟩
  else
    let words := tagTokens avail ident (tokenize text) "eng_Latn"
    let detected := pyDedup (taggedLangs words)
    ⟨words, detected, detected.length⟩

/-- Candidate source-hypothesis construction of
`TranslationModel.translate` (lines 151-169), including the
`list(dict.fromkeys(candidates))` deduplication of the loop header. -/
def candidateSources (detected : List String) : List String :=
  pyDedup ((if "arb_Arab" ∈ detected then ["arb_Arab"] else []) ++
    ["eng_Latn"] ++
    (if "fra_Latn" ∈ detected then ["fra_Latn"]
     else if "spa_Latn" ∈ detected then ["spa_Latn"]
     else []))

/-- Left fold of Python's `max(outputs, key=lambda x: x[1])`: the running
maximum is replaced only on a strictly larger key, so the first maximal
element wins. -/
def maxFold (x : Str × ℚ × String) : List (Str × ℚ × String) → Str × ℚ × String
  | [] => x
  | y :: ys => maxFold (if x.2.1 < y.2.1 then y else x) ys

/-- Python `max(l, key=lambda x: x[1])`; `none` models the ValueError on
an empty sequence. -/
def maxByScore : List (Str × ℚ × String) → Option (Str × ℚ × String)
  | [] => none
  | x :: xs => some (maxFold x xs)

/-- Round half to even, the rounding of Python's `round`. -/
def roundHalfEven (q : ℚ) : ℤ :=
  if q - ⌊q⌋ < 1/2 then ⌊q⌋
  else if 1/2 < q - ⌊q⌋ then ⌊q⌋ + 1
  else if ⌊q⌋ % 2 = 0 then ⌊q⌋ else ⌊q⌋ + 1

/-- Python `round(x, 3)`, idealized on rationals. -/
def pyRound3 (q : ℚ) : ℚ := (roundHalfEven (q * 1000) : ℚ) / 1000

/-- Result dictionary of `TranslationModel.translate`.  The empty-input
branch returns `{"translation": "", "analysis": None}` with no
`best_src`/`best_score` keys, modelled by `none` fields. -/
structure TransOut where
  translation : Str
  analysis : Option Analysis
  best_src : Option String
  best_score : Option ℚ
deriving DecidableEq

/-- The method `TranslationModel.translate`.  `engine` models
`_translate_with_src` (the black-box seq2seq engine applied to the
normalized text, a declared source tag and the target tag).  A raised
exception (the IndexError of `score_translation`, or `max` on an empty
sequence, which cannot happen) is modelled by `none`. -/
def translate (avail : Bool) (ident : Str → Option String)
    (engine : Str → String → String → Str) (text : Str) (target : String) :
    Option TransOut :=
  let t := normalize text
  if t = [] then some ⟨[], none, none, none⟩
  else
    let analysis := analyze_words avail ident t
    let srcs := candidateSources analysis.languages_detected
    match srcs.mapM (fun src =>
        let out := engine t src target
        (score_translation t out target).map fun sc => (out, sc, src)) with
    | none => none
    | some outputs =>
      match maxByScore outputs with
      | none => none
      | some best =>
        some ⟨best.1, some analysis, some best.2.2, some (pyRound3 best.2.1)⟩

/-! ## Helper lemmas -/

theorem pyStrip_eq_nil {l : Str} (h : ∀ c ∈ l, pyIsSpace c) : pyStrip l = [] := by
  unfold pyStrip
  rw [List.dropWhile_eq_nil_iff.2 h]
  simp

theorem chunksBy_forall {P : Char → Prop} (f : Char → Nat) :
    ∀ l : Str, (∀ c ∈ l, P c) → ∀ w ∈ chunksBy f l, ∀ c ∈ w, P c := by
  intro l
  induction l with
  | nil => intro _ w hw; simp [chunksBy] at hw
  | cons c rest ih =>
    intro h w hw
    have hc : P c := h c (by simp)
    have hrest : ∀ x ∈ rest, P x := fun x hx => h x (by simp [hx])
    rcases hr : chunksBy f rest with _ | ⟨w0, more⟩
    · rw [chunksBy, hr] at hw
      simp at hw
      subst hw
      intro x hx
      simp at hx
      subst hx
      exact hc
    · rcases w0 with _ | ⟨d, ds⟩
      · rw [chunksBy, hr] at hw
        simp at hw
        rcases hw with hw | hw
        · subst hw
          intro x hx
          simp at hx
          subst hx
          exact hc
        · exact ih hrest w (by rw [hr]; simp [hw])
      · rw [chunksBy, hr] at hw
        by_cases hf : f c = f d
        · simp only [hf, if_true] at hw
          simp at hw
          rcases hw with hw | hw
          · subst hw
            intro x hx
            rcases List.mem_cons.1 hx with rfl | hx2
            · exact hc
            · exact ih hrest (d :: ds) (by rw [hr]; simp) x hx2
          · exact ih hrest w (by rw [hr]; simp [hw])
        · simp only [if_neg hf] at hw
          simp at hw
          rcases hw with hw | hw
          · subst hw
            intro x hx
            simp at hx
            subst hx
            exact hc
          · exact ih hrest w (by rw [hr]; simp [hw])

theorem pySplit_eq_nil {l : Str} (h : ∀ c ∈ l, pyIsSpace c) : pySplit l = [] := by
  unfold pySplit
  rw [List.filter_eq_nil_iff]
  intro w hw
  have hall := chunksBy_forall (P := fun c => pyIsSpace c = true) _ l h w hw
  rcases w with _ | ⟨c, cs⟩
  · simp
  · simp [hall c (by simp)]

theorem normalize_eq_nil {l : Str} (h : ∀ c ∈ l, pyIsSpace c) : normalize l = [] := by
  unfold normalize
  rw [pySplit_eq_nil h]
  rfl

theorem mem_pyDedupAux :
    ∀ (l seen : List String) (x : String),
      x ∈ pyDedupAux seen l ↔ x ∈ l ∧ x ∉ seen := by
  intro l
  induction l with
  | nil => intro seen x; simp [pyDedupAux]
  | cons a l ih =>
    intro seen x
    by_cases ha : a ∈ seen
    · simp only [pyDedupAux, if_pos ha, ih, List.mem_cons]
      constructor
      · rintro ⟨hl, hs⟩; exact ⟨Or.inr hl, hs⟩
      · rintro ⟨hax | hl, hs⟩
        · subst hax; exact absurd ha hs
        · exact ⟨hl, hs⟩
    · simp only [pyDedupAux, if_neg ha, List.mem_cons, ih]
      constructor
      · rintro (rfl | ⟨hl, hs⟩)
        · exact ⟨Or.inl rfl, ha⟩
        · exact ⟨Or.inr hl, fun hx => hs (Or.inr hx)⟩
      · rintro ⟨rfl | hl, hs⟩
        · exact Or.inl rfl
        · by_cases hxa : x = a
          · exact Or.inl hxa
          · exact Or.inr ⟨hl, by simp [hxa, hs]⟩

theorem pyDedupAux_nodup :
    ∀ (l seen : List String), (pyDedupAux seen l).Nodup := by
  intro l
  induction l with
  | nil => intro seen; simp [pyDedupAux]
  | cons a l ih =>
    intro seen
    by_cases ha : a ∈ seen
    · simpa only [pyDedupAux, if_pos ha] using ih seen
    · simp only [pyDedupAux, if_neg ha, List.nodup_cons]
      refine ⟨fun hmem => ?_, ih (a :: seen)⟩
      have := (mem_pyDedupAux l (a :: seen) a).1 hmem
      simp at this

theorem pyDedupAux_pairwise :
    ∀ (l seen : List String),
      (pyDedupAux seen l).Pairwise fun a b => l.indexOf a < l.indexOf b := by
  intro l
  induction l with
  | nil => intro seen; simp [pyDedupAux]
  | cons a l ih =>
    intro seen
    by_cases ha : a ∈ seen
    · simp only [pyDedupAux, if_pos ha]
      refine ((ih seen).imp_of_mem ?_)
      intro x y hx hy hlt
      have hxs := (mem_pyDedupAux l seen x).1 hx
      have hys := (mem_pyDedupAux l seen y).1 hy
      have hxa : a ≠ x := fun h => hxs.2 (h ▸ ha)
      have hya : a ≠ y := fun h => hys.2 (h ▸ ha)
      rw [List.indexOf_cons_ne _ hxa, List.indexOf_cons_ne _ hya]
      exact Nat.succ_lt_succ hlt
    · simp only [pyDedupAux, if_neg ha, List.pairwise_cons]
      constructor
      · intro b hb
        have hbs := (mem_pyDedupAux l (a :: seen) b).1 hb
        have hba : a ≠ b := fun h => hbs.2 (by simp [h])
        rw [List.indexOf_cons_self, List.indexOf_cons_ne _ hba]
        exact Nat.succ_pos _
      · refine ((ih (a :: seen)).imp_of_mem ?_)
        intro x y hx hy hlt
        have hxs := (mem_pyDedupAux l (a :: seen) x).1 hx
        have hys := (mem_pyDedupAux l (a :: seen) y).1 hy
        have hxa : a ≠ x := fun h => hxs.2 (by simp [h])
        have hya : a ≠ y := fun h => hys.2 (by simp [h])
        rw [List.indexOf_cons_ne _ hxa, List.indexOf_cons_ne _ hya]
        exact Nat.succ_lt_succ hlt

theorem mem_pyDedup (l : List String) (x : String) : x ∈ pyDedup l ↔ x ∈ l := by
  unfold pyDedup
  rw [mem_pyDedupAux]
  simp

theorem pyDedup_nodup (l : List String) : (pyDedup l).Nodup :=
  pyDedupAux_nodup l []

theorem pyDedup_pairwise (l : List String) :
    (pyDedup l).Pairwise fun a b => l.indexOf a < l.indexOf b :=
  pyDedupAux_pairwise l []

theorem tagTokens_punct (avail : Bool) (ident : Str → Option String) :
    ∀ (toks : List Str) (ctx : String) (p : Str × String),
      p ∈ tagTokens avail ident toks ctx → isPunctTok p.1 = true →
      p.2 = "punct" := by
  intro toks
  induction toks with
  | nil => intro ctx p hp; simp [tagTokens] at hp
  | cons tok rest ih =>
    intro ctx p hp hpunct
    by_cases hs : isSpaceTok tok
    · rw [tagTokens, if_pos hs] at hp
      exact ih ctx p hp hpunct
    · by_cases hpt : isPunctTok tok
      · rw [tagTokens, if_neg hs, if_pos hpt] at hp
        rcases List.mem_cons.1 hp with rfl | hp2
        · rfl
        · exact ih ctx p hp2 hpunct
      · rw [tagTokens, if_neg hs, if_neg hpt] at hp
        rcases List.mem_cons.1 hp with rfl | hp2
        · exact absurd hpunct (by simpa using hpt)
        · exact ih _ p hp2 hpunct

theorem mem_taggedLangs (words : List (Str × String)) (x : String) :
    x ∈ taggedLangs words ↔ ∃ p ∈ words, p.2 ≠ "punct" ∧ p.2 = x := by
  unfold taggedLangs
  simp only [List.mem_map, List.mem_filter, decide_eq_true_eq]
  constructor
  · rintro ⟨p, ⟨hpw, hpne⟩, rfl⟩; exact ⟨p, hpw, hpne, rfl⟩
  · rintro ⟨p, hpw, hpne, rfl⟩; exact ⟨p, ⟨hpw, hpne⟩, rfl⟩

/-! ## C8 -/

/-- C8: for every input string that is empty or consists only of
whitespace, `analyze_words` returns the empty analysis (empty word list,
empty detected-language list, count 0), and `translate` returns the
empty-input result without invoking the translation engine (the result is
the same for every engine); neither operation fails. -/
theorem c8_empty_input (avail : Bool) (ident : Str → Option String)
    (engine : Str → String → String → Str) (text : Str) (target : String)
    (h : ∀ c ∈ text, pyIsSpace c) :
    analyze_words avail ident text = ⟨[], [], 0⟩ ∧
    translate avail ident engine text target = some ⟨[], none, none, none⟩ := by
  constructor
  · unfold analyze_words
    rw [if_pos (pyStrip_eq_nil h)]
  · unfold translate
    simp [normalize_eq_nil h]

/-- Witness for C8 at the concrete whitespace input `" "`. -/
theorem c8_empty_input_witness :
    analyze_words false (fun _ => none) [' '] = ⟨[], [], 0⟩ ∧
    translate false (fun _ => none) (fun _ _ _ => []) [' '] "arb_Arab" =
      some ⟨[], none, none, none⟩ :=
  c8_empty_input false (fun _ => none) (fun _ _ _ => []) [' '] "arb_Arab"
    (by decide)

/-! ## C9 -/

/-- C9: for every input text, punctuation tokens in the analysis output
are tagged with the `"punct"` marker, punctuation never contributes to the
detected-language list or to `languages_count`, `languages_count` equals
the size of the detected-language list, the list has no duplicates, and
its order is the order of first occurrence among the tagged words (indices
into the tag sequence of non-punctuation words are strictly increasing
along the list). -/
theorem c9_punct_invariants (avail : Bool) (ident : Str → Option String)
    (text : Str) :
    (∀ p ∈ (analyze_words avail ident text).words,
       isPunctTok p.1 = true → p.2 = "punct") ∧
    "punct" ∉ (analyze_words avail ident text).languages_detected ∧
    (analyze_words avail ident text).languages_count =
      (analyze_words avail ident text).languages_detected.length ∧
    (analyze_words avail ident text).languages_detected.Nodup ∧
    (∀ x, x ∈ (analyze_words avail ident text).languages_detected ↔
       x ∈ taggedLangs (analyze_words avail ident text).words) ∧
    (analyze_words avail ident text).languages_detected.Pairwise
      (fun a b =>
        (taggedLangs (analyze_words avail ident text).words).indexOf a <
        (taggedLangs (analyze_words avail ident text).words).indexOf b) := by
  by_cases hstrip : pyStrip text = []
  · simp [analyze_words, hstrip, taggedLangs]
  · have hw : (analyze_words avail ident text).words =
        tagTokens avail ident (tokenize text) "eng_Latn" := by
      simp [analyze_words, hstrip]
    have hd : (analyze_words avail ident text).languages_detected =
        pyDedup (taggedLangs (analyze_words avail ident text).words) := by
      simp [analyze_words, hstrip]
    have hc : (analyze_words avail ident text).languages_count =
        (analyze_words avail ident text).languages_detected.length := by
      simp [analyze_words, hstrip]
    refine ⟨?_, ?_, hc, ?_, ?_, ?_⟩
    · intro p hp hpunct
      rw [hw] at hp
      exact tagTokens_punct avail ident _ _ p hp hpunct
    · rw [hd]
      intro hmem
      rcases (mem_taggedLangs _ _).1 ((mem_pyDedup _ _).1 hmem) with
        ⟨p, _, hne, hval⟩
      exact hne hval
    · rw [hd]; exact pyDedup_nodup _
    · intro x; rw [hd]; exact mem_pyDedup _ _
    · rw [hd]; exact pyDedup_pairwise _

/-- Witness for C9 at the concrete input `"Hi, د!"`. -/
theorem c9_punct_invariants_witness :
    "punct" ∉ (analyze_words false (fun _ => none)
      ['H', 'i', ',', ' ', 'د', '!']).languages_detected ∧
    (analyze_words false (fun _ => none)
      ['H', 'i', ',', ' ', 'د', '!']).languages_count =
    (analyze_words false (fun _ => none)
      ['H', 'i', ',', ' ', 'د', '!']).languages_detected.length :=
  ⟨(c9_punct_invariants false (fun _ => none)
      ['H', 'i', ',', ' ', 'د', '!']).2.1,
   (c9_punct_invariants false (fun _ => none)
      ['H', 'i', ',', ' ', 'د', '!']).2.2.1⟩

/-! ## C1 -/

/-- C1: for every detected-language list, the candidate source-hypothesis
list has length between 1 and 3 with no duplicates; `"arb_Arab"` comes
first whenever it is detected; `"eng_Latn"` is always included;
`"fra_Latn"` is included when detected, otherwise `"spa_Latn"` when
detected; never both. -/
theorem c1_candidate_sources (detected : List String) :
    (1 ≤ (candidateSources detected).length ∧
      (candidateSources detected).length ≤ 3) ∧
    (candidateSources detected).Nodup ∧
    ("arb_Arab" ∈ detected →
      (candidateSources detected).head? = some "arb_Arab") ∧
    "eng_Latn" ∈ candidateSources detected ∧
    ("fra_Latn" ∈ detected → "fra_Latn" ∈ candidateSources detected) ∧
    ("fra_Latn" ∉ detected → "spa_Latn" ∈ detected →
      "spa_Latn" ∈ candidateSources detected) ∧
    ¬("fra_Latn" ∈ candidateSources detected ∧
      "spa_Latn" ∈ candidateSources detected) := by
  by_cases ha : "arb_Arab" ∈ detected <;>
    by_cases hf : "fra_Latn" ∈ detected <;>
      by_cases hs : "spa_Latn" ∈ detected <;>
        simp only [candidateSources, ha, hf, hs, if_true, if_false,
          not_true, not_false_iff, if_pos, if_neg, not_false_eq_true,
          List.nil_append, List.cons_append, false_implies, true_implies,
          IsEmpty.forall_iff, forall_true_left] <;>
        refine ⟨by decide, by decide, ?_, by decide, ?_, ?_, by decide⟩ <;>
        first
          | (intro h; revert h; decide)
          | (intro h1 h2; first | exact absurd h1 ha | exact absurd h1 hf
                                | exact absurd h2 hs | revert h1; decide
                                | decide)
          | decide

/-- Witness for C1 at the concrete detected list
`["arb_Arab", "spa_Latn"]`. -/
theorem c1_candidate_sources_witness :
    (candidateSources ["arb_Arab", "spa_Latn"]).head? = some "arb_Arab" ∧
    "eng_Latn" ∈ candidateSources ["arb_Arab", "spa_Latn"] ∧
    "spa_Latn" ∈ candidateSources ["arb_Arab", "spa_Latn"] :=
  ⟨(c1_candidate_sources ["arb_Arab", "spa_Latn"]).2.2.1 (by decide),
   (c1_candidate_sources ["arb_Arab", "spa_Latn"]).2.2.2.1,
   (c1_candidate_sources ["arb_Arab", "spa_Latn"]).2.2.2.2.2.1
     (by decide) (by decide)⟩

/-! ## Scoring lemmas -/

theorem score_translation_spec (source translation : Str) (target : String)
    (h : normalize translation ≠ []) :
    ∃ last, (normalize translation).getLast? = some last ∧
      score_translation source translation target =
        some ((((normalize translation).length : ℚ) /
            (max (normalize source).length 1 : ℚ) +
          (if last ∈ terminators then (1/4 : ℚ) else 0)) -
          ((count_leftover_scripts (normalize translation) target : ℚ) *
            (2/100) +
          (if (((normalize translation).length : ℚ) /
              (max (normalize source).length 1 : ℚ)) < 55/100
           then (7/10 : ℚ) else 0))) := by
  have hne : translation ≠ [] := fun h0 => h (by rw [h0]; rfl)
  have hsome : (normalize translation).getLast?.isSome := by
    rw [List.getLast?_isSome]; exact h
  obtain ⟨last, hlast⟩ := Option.isSome_iff_exists.1 hsome
  refine ⟨last, hlast, ?_⟩
  simp only [score_translation, if_neg hne, hlast]

/-! ## C2 -/

/-- C2 counterexample: the translation `" "` is a non-empty string, yet
`score_translation` raises IndexError (modelled `none`) instead of
returning the value of the formula, because the check `if not translation`
precedes normalization and `translation[-1]` is taken on the normalized
(empty) text. -/
theorem c2_formula_counterexample :
    score_translation ['h', 'i'] [' '] "arb_Arab" = none ∧
    ([' '] : Str) ≠ [] := by decide

/-- C2 amended: for every source string and every translation string whose
whitespace normalization is non-empty, `score_translation` equals
`(lengthRatio + endBonus) - (leftoverPenalty + shortPenalty)` computed on
the normalized texts, with `lengthRatio = len(t)/max(len(s),1)`,
`endBonus = 0.25` exactly when the normalized translation ends in
`. ! ? ؟`, `leftoverPenalty = 0.02` per leftover foreign-script character,
and `shortPenalty = 0.7` exactly when `lengthRatio < 0.55`. -/
theorem c2_score_formula (source translation : Str) (target : String)
    (h : normalize translation ≠ []) :
    ∃ last, (normalize translation).getLast? = some last ∧
      score_translation source translation target =
        some ((((normalize translation).length : ℚ) /
            (max (normalize source).length 1 : ℚ) +
          (if last ∈ terminators then (1/4 : ℚ) else 0)) -
          ((count_leftover_scripts (normalize translation) target : ℚ) *
            (2/100) +
          (if (((normalize translation).length : ℚ) /
              (max (normalize source).length 1 : ℚ)) < 55/100
           then (7/10 : ℚ) else 0))) :=
  score_translation_spec source translation target h

/-- Witness for C2 at source `"ab"`, translation `"x."`,
target `"eng_Latn"`. -/
theorem c2_score_formula_witness :
    ∃ last, (normalize ['x', '.']).getLast? = some last ∧
      score_translation ['a', 'b'] ['x', '.'] "eng_Latn" =
        some ((((normalize ['x', '.']).length : ℚ) /
            (max (normalize ['a', 'b']).length 1 : ℚ) +
          (if last ∈ terminators then (1/4 : ℚ) else 0)) -
          ((count_leftover_scripts (normalize ['x', '.']) "eng_Latn" : ℚ) *
            (2/100) +
          (if (((normalize ['x', '.']).length : ℚ) /
              (max (normalize ['a', 'b']).length 1 : ℚ)) < 55/100
           then (7/10 : ℚ) else 0))) :=
  c2_score_formula ['a', 'b'] ['x', '.'] "eng_Latn" (by decide)

/-! ## C10 -/

/-- C10 counterexample: `score_translation` is not total on pairs of
strings: on the non-empty whitespace-only translation `"  "` the code
raises IndexError (modelled `none`) instead of returning a number or the
sentinel. -/
theorem c10_totality_counterexample :
    score_translation ['a'] [' ', ' '] "eng_Latn" = none ∧
    ([' ', ' '] : Str) ≠ [] := by decide

/-- C10 amended: `score_translation` returns the `-999` sentinel on the
empty translation, returns a number whenever the normalized translation
is non-empty, and raises IndexError (modelled `none`) exactly on the
remaining inputs: non-empty translations consisting only of
whitespace. -/
theorem c10_totality (source translation : Str) (target : String) :
    (translation = [] →
      score_translation source translation target = some (-999)) ∧
    (normalize translation ≠ [] →
      ∃ q, score_translation source translation target = some q) ∧
    (translation ≠ [] → normalize translation = [] →
      score_translation source translation target = none) := by
  refine ⟨?_, ?_, ?_⟩
  · intro h; subst h; rfl
  · intro h
    obtain ⟨last, _, heq⟩ := score_translation_spec source translation target h
    exact ⟨_, heq⟩
  · intro hne hnorm
    simp [score_translation, if_neg hne, hnorm]

/-- Witness for C10 at the empty translation. -/
theorem c10_totality_witness :
    score_translation ['a'] [] "arb_Arab" = some (-999) :=
  (c10_totality ['a'] [] "arb_Arab").1 rfl

/-! ## C6 -/

/-- C6: holding the source, the target, the normalized translation length
and the final character fixed, the score drops by exactly 0.02 per
additional leftover foreign-script character (so it is strictly
decreasing in the leftover count); and with everything else fixed the
score equals the base value when `lengthRatio ≥ 0.55` and the base value
minus exactly 0.7 when `lengthRatio < 0.55`. -/
theorem c6_score_monotonic :
    (∀ (source t1 t2 : Str) (target : String),
      normalize t1 ≠ [] → normalize t2 ≠ [] →
      (normalize t1).length = (normalize t2).length →
      (normalize t1).getLast? = (normalize t2).getLast? →
      ∃ q1 q2, score_translation source t1 target = some q1 ∧
        score_translation source t2 target = some q2 ∧
        q1 - q2 = ((count_leftover_scripts (normalize t2) target : ℚ) -
          (count_leftover_scripts (normalize t1) target : ℚ)) * (2/100)) ∧
    (∀ (source translation : Str) (target : String),
      normalize translation ≠ [] →
      ∃ last q, (normalize translation).getLast? = some last ∧
        score_translation source translation target = some q ∧
        (((((normalize translation).length : ℚ) /
            (max (normalize source).length 1 : ℚ)) < 55/100 →
          q = ((normalize translation).length : ℚ) /
              (max (normalize source).length 1 : ℚ) +
            (if last ∈ terminators then (1/4 : ℚ) else 0) -
            (count_leftover_scripts (normalize translation) target : ℚ) *
              (2/100) - 7/10) ∧
        (55/100 ≤ (((normalize translation).length : ℚ) /
            (max (normalize source).length 1 : ℚ)) →
          q = ((normalize translation).length : ℚ) /
              (max (normalize source).length 1 : ℚ) +
            (if last ∈ terminators then (1/4 : ℚ) else 0) -
            (count_leftover_scripts (normalize translation) target : ℚ) *
              (2/100)))) := by
  constructor
  · intro source t1 t2 target h1 h2 hlen hend
    obtain ⟨l1, hl1, he1⟩ := score_translation_spec source t1 target h1
    obtain ⟨l2, hl2, he2⟩ := score_translation_spec source t2 target h2
    have hl12 : l1 = l2 := by
      have : some l1 = some l2 := by rw [← hl1, ← hl2, hend]
      exact Option.some.inj this
    have hr : ((normalize t1).length : ℚ) = ((normalize t2).length : ℚ) := by
      rw [hlen]
    refine ⟨_, _, he1, he2, ?_⟩
    rw [hr, hl12]
    ring
  · intro source translation target h
    obtain ⟨last, hlast, heq⟩ := score_translation_spec source translation target h
    refine ⟨last, _, hlast, heq, ?_, ?_⟩
    · intro hlt; rw [if_pos hlt]; ring
    · intro hge; rw [if_neg (not_lt.2 hge)]; ring

/-- Witness for C6: two equal-length translations ending in `"."`, the
second carrying one Arabic leftover character, target `"eng_Latn"`. -/
theorem c6_score_monotonic_witness :
    ∃ q1 q2, score_translation ['s'] ['a', 'b', 'c', '.'] "eng_Latn" = some q1 ∧
      score_translation ['s'] ['a', 'س', 'c', '.'] "eng_Latn" = some q2 ∧
      q1 - q2 =
        ((count_leftover_scripts (normalize ['a', 'س', 'c', '.']) "eng_Latn" : ℚ) -
          (count_leftover_scripts (normalize ['a', 'b', 'c', '.']) "eng_Latn" : ℚ)) *
          (2/100) :=
  c6_score_monotonic.1 ['s'] ['a', 'b', 'c', '.'] ['a', 'س', 'c', '.']
    "eng_Latn" (by decide) (by decide) (by decide) (by decide)

/-! ## C4 -/

/-- C4 counterexample: `"pol_Latn"` is a Latin-script LanguageTag of the
registry (the Polish target), yet on the all-Latin translation `"abc"`
the leftover count is 3, not the number of Arabic + Cyrillic + CJK
characters (0): tags outside the hard-coded eight-element Latin list fall
to the default branch, which counts Latin characters; moreover the empty
translation yields the 999 sentinel, not 0. -/
theorem c4_leftover_counterexample :
    count_leftover_scripts ['a', 'b', 'c'] "pol_Latn" = 3 ∧
    countRange 0x600 0x6FF ['a', 'b', 'c'] +
      countRange 0x400 0x4FF ['a', 'b', 'c'] +
      countRange 0x4E00 0x9FFF ['a', 'b', 'c'] = 0 ∧
    ("Polish", "pol_Latn") ∈ LANGUAGES ∧
    count_leftover_scripts [] "eng_Latn" = 999 := by decide

/-- C4 amended: for the eight hard-coded Latin-script targets and every
non-empty translation, the leftover count is the number of Arabic +
Cyrillic + CJK characters (so Latin characters are not counted); targets
matching none of the hard-coded script lists (including other `_Latn`
registry tags such as `"pol_Latn"`) fall to the default branch counting
Latin + Arabic characters; the empty translation yields the 999
sentinel. -/
theorem c4_leftover_scripts (text : Str) (target : String) :
    (text ≠ [] → target ∈ latinTargets →
      count_leftover_scripts text target =
        countRange 0x600 0x6FF text + countRange 0x400 0x4FF text +
          countRange 0x4E00 0x9FFF text) ∧
    (text ≠ [] → target ∉ arabTargets → target ∉ latinTargets →
      target ∉ cyrTargets → target ∉ cjkTargets →
      count_leftover_scripts text target =
        countLatin text + countRange 0x600 0x6FF text) ∧
    (text = [] → count_leftover_scripts text target = 999) := by
  refine ⟨?_, ?_, ?_⟩
  · intro hne hlat
    have hnarab : target ∉ arabTargets := by
      simp only [latinTargets, List.mem_cons, List.not_mem_nil,
        or_false] at hlat
      rcases hlat with rfl | rfl | rfl | rfl | rfl | rfl | rfl | rfl <;>
        exact (by decide)
    simp only [count_leftover_scripts, if_neg hne, if_neg hnarab,
      if_pos hlat]
  · intro hne hnarab hnlat hncyr hncjk
    simp only [count_leftover_scripts, if_neg hne, if_neg hnarab,
      if_neg hnlat, if_neg hncyr, if_neg hncjk]
  · intro h; subst h; rfl

/-- Witness for C4 at the one-character Arabic translation `"س"` and
target `"eng_Latn"`. -/
theorem c4_leftover_scripts_witness :
    count_leftover_scripts ['س'] "eng_Latn" =
      countRange 0x600 0x6FF ['س'] + countRange 0x400 0x4FF ['س'] +
        countRange 0x4E00 0x9FFF ['س'] :=
  (c4_leftover_scripts ['س'] "eng_Latn").1 (by decide) (by decide)

/-! ## C3 -/

/-- C3 counterexample: the token `"1234"` is not Latin-alphabet and
matches no recognized script, yet the statistical identifier is queried
(the result depends on the identifier and differs from the context
language): the code gates the query only on availability and
`len(token) >= 4`, not on the token being Latin-alphabet. -/
theorem c3_statistical_counterexample :
    detect_language true (fun _ => some "fr") ['1', '2', '3', '4']
      "eng_Latn" = "fra_Latn" ∧
    detect_by_script (pyStrip ['1', '2', '3', '4']) = none ∧
    fullLatin (pyStrip ['1', '2', '3', '4']) = false ∧
    ("fra_Latn" : String) ≠ "eng_Latn" := by decide

/-- C3 amended: for tokens matching no recognized script, the statistical
identifier is queried exactly when it is available and the stripped token
has length at least 4 — regardless of whether the token is Latin-alphabet
— and its code is mapped through the fixed `MAP` table with the context
language as default (so exceptions and unrecognized codes fall back to
the context language); tokens of length at most 3, or any token when the
identifier is unavailable, yield the context language without the result
depending on the identifier. -/
theorem c3_statistical_fallback (avail : Bool) (ident : Str → Option String)
    (token : Str) (fallback : String)
    (hscript : detect_by_script (pyStrip token) = none) :
    (avail = true → 4 ≤ (pyStrip token).length →
      detect_language avail ident token fallback =
        match ident (pyStrip token) with
        | some code => (MAP.lookup code).getD fallback
        | none => fallback) ∧
    ((pyStrip token).length ≤ 3 →
      detect_language avail ident token fallback = fallback) ∧
    (avail = false →
      detect_language avail ident token fallback = fallback) := by
  by_cases hnil : pyStrip token = []
  · refine ⟨?_, ?_, ?_⟩
    · intro _ hlen; rw [hnil] at hlen; simp at hlen
    · intro _; simp [detect_language, hnil]
    · intro _; simp [detect_language, hnil]
  · refine ⟨?_, ?_, ?_⟩
    · intro havail hlen
      have hnshort :
          ¬(fullLatin (pyStrip token) = true ∧ (pyStrip token).length ≤ 3) := by
        rintro ⟨_, h3⟩; omega
      simp only [detect_language, if_neg hnil, hscript]
      rw [if_neg hnshort, if_pos ⟨havail, hlen⟩]
    · intro hlen3
      simp only [detect_language, if_neg hnil, hscript]
      by_cases hshort :
          (fullLatin (pyStrip token) = true ∧ (pyStrip token).length ≤ 3)
      · rw [if_pos hshort]
      · rw [if_neg hshort]
        have hnavail : ¬(avail = true ∧ 4 ≤ (pyStrip token).length) := by
          rintro ⟨_, h4⟩; omega
        rw [if_neg hnavail]
    · intro havail
      simp only [detect_language, if_neg hnil, hscript]
      by_cases hshort :
          (fullLatin (pyStrip token) = true ∧ (pyStrip token).length ≤ 3)
      · rw [if_pos hshort]
      · rw [if_neg hshort]
        have hnavail : ¬(avail = true ∧ 4 ≤ (pyStrip token).length) := by
          rintro ⟨ha, _⟩; rw [havail] at ha; exact Bool.false_ne_true ha
        rw [if_neg hnavail]

/-- Witness for C3: available identifier returning the unrecognized code
`"xx"` on the length-4 token `"abcd"` falls back to the context
language. -/
theorem c3_statistical_fallback_witness :
    detect_language true (fun _ => some "xx") ['a', 'b', 'c', 'd']
      "spa_Latn" = "spa_Latn" := by
  have h := (c3_statistical_fallback true (fun _ => some "xx")
    ['a', 'b', 'c', 'd'] "spa_Latn" (by decide)).1 rfl (by decide)
  rw [h]
  decide

/-! ## Selection lemmas -/

theorem mapM_eq_map {α β : Type} (f : α → Option β) (g : α → β) :
    ∀ l : List α, (∀ a ∈ l, f a = some (g a)) → l.mapM f = some (l.map g) := by
  intro l
  induction l with
  | nil => intro _; rfl
  | cons a l ih =>
    intro h
    simp only [List.mapM_cons, List.map_cons, h a (by simp),
      ih (fun x hx => h x (by simp [hx])), Option.pure_def,
      Option.bind_eq_bind, Option.some_bind]

theorem maxFold_le (ys : List (Str × ℚ × String)) :
    ∀ x, (∀ y ∈ ys, y.2.1 ≤ x.2.1) → maxFold x ys = x := by
  induction ys with
  | nil => intro x _; rfl
  | cons y ys ih =>
    intro x h
    rw [maxFold, if_neg (not_lt.2 (h y (by simp)))]
    exact ih x fun z hz => h z (by simp [hz])

theorem maxFold_split :
    ∀ (ys : List (Str × ℚ × String)) (x : Str × ℚ × String),
      ∃ pre post, x :: ys = pre ++ maxFold x ys :: post ∧
        (∀ y ∈ pre, y.2.1 < (maxFold x ys).2.1) ∧
        (∀ y ∈ post, y.2.1 ≤ (maxFold x ys).2.1) := by
  intro ys
  induction ys with
  | nil => exact fun x => ⟨[], [], rfl, by simp, by simp⟩
  | cons y ys ih =>
    intro x
    by_cases hxy : x.2.1 < y.2.1
    · have hfold : maxFold x (y :: ys) = maxFold y ys := by
        rw [maxFold, if_pos hxy]
      obtain ⟨pre, post, hsplit, hpre, hpost⟩ := ih y
      have hym : y.2.1 ≤ (maxFold y ys).2.1 := by
        rcases pre with _ | ⟨p, ps⟩
        · rw [List.nil_append] at hsplit
          injection hsplit with h1 _
          rw [← h1]
        · rw [List.cons_append] at hsplit
          injection hsplit with h1 _
          exact le_of_lt (h1 ▸ hpre p (by simp))
      refine ⟨x :: pre, post, ?_, ?_, ?_⟩
      · rw [hfold, List.cons_append, ← hsplit]
      · intro z hz
        rw [hfold]
        rcases List.mem_cons.1 hz with rfl | hz2
        · exact lt_of_lt_of_le hxy hym
        · exact hpre z hz2
      · intro z hz; rw [hfold]; exact hpost z hz
    · have hfold : maxFold x (y :: ys) = maxFold x ys := by
        rw [maxFold, if_neg hxy]
      have hyx : y.2.1 ≤ x.2.1 := not_lt.1 hxy
      obtain ⟨pre, post, hsplit, hpre, hpost⟩ := ih x
      rcases pre with _ | ⟨p, ps⟩
      · rw [List.nil_append] at hsplit
        injection hsplit with h1 h2
        refine ⟨[], y :: post, ?_, by simp, ?_⟩
        · rw [hfold, ← h1, List.nil_append, ← h2]
        · intro z hz
          rw [hfold]
          rcases List.mem_cons.1 hz with rfl | hz2
          · exact le_trans hyx (le_of_eq (congrArg (fun w => w.2.1) h1))
          · exact hpost z hz2
      · rw [List.cons_append] at hsplit
        injection hsplit with h1 h2
        have hxm : x.2.1 < (maxFold x ys).2.1 := h1 ▸ hpre p (by simp)
        refine ⟨x :: y :: ps, post, ?_, ?_, ?_⟩
        · rw [hfold, List.cons_append, List.cons_append]
          conv_lhs => rw [h2]
        · intro z hz
          rw [hfold]
          rcases List.mem_cons.1 hz with rfl | hz2
          · exact hxm
          · rcases List.mem_cons.1 hz2 with rfl | hz3
            · exact lt_of_le_of_lt hyx hxm
            · exact hpre z (by simp [hz3])
        · intro z hz; rw [hfold]; exact hpost z hz

theorem pyDedup_ne_nil {l : List String} (h : l ≠ []) : pyDedup l ≠ [] := by
  cases l with
  | nil => exact absurd rfl h
  | cons a l => simp [pyDedup, pyDedupAux]

theorem candidateSources_ne_nil (detected : List String) :
    candidateSources detected ≠ [] := by
  unfold candidateSources
  apply pyDedup_ne_nil
  by_cases ha : "arb_Arab" ∈ detected <;> simp [ha]

theorem pyRound3_neg999 : pyRound3 (-999) = -999 := by
  unfold pyRound3 roundHalfEven
  norm_num

theorem translate_eq (avail : Bool) (ident : Str → Option String)
    (engine : Str → String → String → Str) (text : Str) (target : String)
    (hne : normalize text ≠ []) (o : Str × ℚ × String)
    (os : List (Str × ℚ × String))
    (hmap : (candidateSources
        (analyze_words avail ident (normalize text)).languages_detected).mapM
      (fun src =>
        (score_translation (normalize text) (engine (normalize text) src target)
          target).map fun sc => (engine (normalize text) src target, sc, src)) =
      some (o :: os)) :
    translate avail ident engine text target =
      some ⟨(maxFold o os).1,
        some (analyze_words avail ident (normalize text)),
        some (maxFold o os).2.2, some (pyRound3 (maxFold o os).2.1)⟩ := by
  simp only [translate]
  rw [if_neg hne, hmap]
  rfl

theorem translate_all_empty (avail : Bool) (ident : Str → Option String)
    (engine : Str → String → String → Str) (text : Str) (target : String)
    (hne : normalize text ≠ [])
    (hempty : ∀ src, engine (normalize text) src target = [])
    (s0 : String) (ss : List String)
    (hcands : candidateSources
      (analyze_words avail ident (normalize text)).languages_detected =
      s0 :: ss) :
    translate avail ident engine text target =
      some ⟨[], some (analyze_words avail ident (normalize text)), some s0,
        some (-999)⟩ := by
  have hmap : (candidateSources
      (analyze_words avail ident (normalize text)).languages_detected).mapM
      (fun src =>
        (score_translation (normalize text) (engine (normalize text) src target)
          target).map fun sc => (engine (normalize text) src target, sc, src)) =
      some ((s0 :: ss).map fun src => (([] : Str), (-999 : ℚ), src)) := by
    rw [hcands]
    apply mapM_eq_map
    intro src _
    rw [hempty src]
    rfl
  rw [List.map_cons] at hmap
  rw [translate_eq avail ident engine text target hne _ _ hmap]
  have hfold : maxFold (([] : Str), (-999 : ℚ), s0)
      (ss.map fun src => (([] : Str), (-999 : ℚ), src)) =
      (([] : Str), (-999 : ℚ), s0) := by
    apply maxFold_le
    intro y hy
    rcases List.mem_map.1 hy with ⟨src, _, rfl⟩
    exact le_refl _
  rw [hfold]
  simp [pyRound3_neg999]

/-! ## C5 -/

/-- C5 counterexample: with an engine returning the empty string for
every candidate (so every candidate scores the -999 sentinel),
`translate` does not surface a failure: it returns an ordinary result
dictionary carrying the empty translation, the computed analysis, a
best source and the sentinel score. -/
theorem c5_no_failure_counterexample :
    translate false (fun _ => none) (fun _ _ _ => []) ['h', 'i'] "eng_Latn" =
      some ⟨[], some ⟨[(['h', 'i'], "eng_Latn")], ["eng_Latn"], 1⟩,
        some "eng_Latn", some (-999)⟩ := by
  rw [translate_all_empty false (fun _ => none) (fun _ _ _ => [])
    ['h', 'i'] "eng_Latn" (by decide) (fun _ => rfl) "eng_Latn" []
    (by decide)]
  decide

/-- C5 amended: when every candidate translation produced by the engine
is empty, `translate` returns an ordinary result — empty translation, the
computed AnalysisResult, the first candidate hypothesis as best source and
the -999 sentinel score — rather than a failure distinct from the
empty-input result (whose analysis field is `none`). -/
theorem c5_all_empty_result (avail : Bool) (ident : Str → Option String)
    (engine : Str → String → String → Str) (text : Str) (target : String)
    (hne : normalize text ≠ [])
    (hempty : ∀ src, engine (normalize text) src target = []) :
    ∃ s0 ss,
      candidateSources
        (analyze_words avail ident (normalize text)).languages_detected =
        s0 :: ss ∧
      translate avail ident engine text target =
        some ⟨[], some (analyze_words avail ident (normalize text)), some s0,
          some (-999)⟩ := by
  obtain ⟨s0, ss, hcands⟩ :=
    List.exists_cons_of_ne_nil (candidateSources_ne_nil _)
  exact ⟨s0, ss, hcands,
    translate_all_empty avail ident engine text target hne hempty s0 ss hcands⟩

/-- Witness for C5 at the concrete input `"ok"` with the all-empty
engine. -/
theorem c5_all_empty_result_witness :
    ∃ s0 ss,
      candidateSources (analyze_words false (fun _ => none)
        (normalize ['o', 'k'])).languages_detected = s0 :: ss ∧
      translate false (fun _ => none) (fun _ _ _ => []) ['o', 'k']
        "fra_Latn" =
        some ⟨[], some (analyze_words false (fun _ => none)
          (normalize ['o', 'k'])), some s0, some (-999)⟩ :=
  c5_all_empty_result false (fun _ => none) (fun _ _ _ => []) ['o', 'k']
    "fra_Latn" (by decide) (fun _ => rfl)

/-! ## C7 -/

/-- C7: whenever the input normalizes to a non-empty text and every
candidate's score is defined, `translate` returns the candidate with the
maximum score — ties broken by first occurrence in the hypothesis list
(everything strictly before the chosen candidate scores strictly less,
everything after scores at most as much) — paired with the
AnalysisResult of the normalized input, which is computed independently
of the engine. -/
theorem c7_stable_argmax (avail : Bool) (ident : Str → Option String)
    (engine : Str → String → String → Str) (text : Str) (target : String)
    (hne : normalize text ≠ [])
    (hscores : ∀ src ∈ candidateSources
        (analyze_words avail ident (normalize text)).languages_detected,
      (score_translation (normalize text) (engine (normalize text) src target)
        target).isSome = true) :
    ∃ best pre post,
      translate avail ident engine text target =
        some ⟨best.1, some (analyze_words avail ident (normalize text)),
          some best.2.2, some (pyRound3 best.2.1)⟩ ∧
      (candidateSources
        (analyze_words avail ident (normalize text)).languages_detected).map
        (fun src => (engine (normalize text) src target,
          (score_translation (normalize text)
            (engine (normalize text) src target) target).getD 0, src)) =
        pre ++ best :: post ∧
      (∀ y ∈ pre, y.2.1 < best.2.1) ∧
      (∀ y ∈ post, y.2.1 ≤ best.2.1) ∧
      (∀ y ∈ (candidateSources
          (analyze_words avail ident (normalize text)).languages_detected).map
          (fun src => (engine (normalize text) src target,
            (score_translation (normalize text)
              (engine (normalize text) src target) target).getD 0, src)),
        y.2.1 ≤ best.2.1) := by
  obtain ⟨s0, ss, hcands⟩ :=
    List.exists_cons_of_ne_nil (candidateSources_ne_nil
      (analyze_words avail ident (normalize text)).languages_detected)
  have hmap : (s0 :: ss).mapM
      (fun src =>
        (score_translation (normalize text) (engine (normalize text) src target)
          target).map fun sc => (engine (normalize text) src target, sc, src)) =
      some ((s0 :: ss).map
        (fun src => (engine (normalize text) src target,
          (score_translation (normalize text)
            (engine (normalize text) src target) target).getD 0, src))) := by
    apply mapM_eq_map
    intro src hsrc
    obtain ⟨q, hq⟩ :=
      Option.isSome_iff_exists.1 (hscores src (by rw [hcands]; exact hsrc))
    rw [hq]
    rfl
  have hmap2 : (candidateSources
      (analyze_words avail ident (normalize text)).languages_detected).mapM
      (fun src =>
        (score_translation (normalize text) (engine (normalize text) src target)
          target).map fun sc => (engine (normalize text) src target, sc, src)) =
      some ((engine (normalize text) s0 target,
          (score_translation (normalize text)
            (engine (normalize text) s0 target) target).getD 0, s0) ::
        ss.map (fun src => (engine (normalize text) src target,
          (score_translation (normalize text)
            (engine (normalize text) src target) target).getD 0, src))) := by
    rw [hcands]
    exact hmap
  have htrans := translate_eq avail ident engine text target hne _ _ hmap2
  obtain ⟨pre, post, hsplit, hpre, hpost⟩ :=
    maxFold_split
      (ss.map fun src => (engine (normalize text) src target,
        (score_translation (normalize text)
          (engine (normalize text) src target) target).getD 0, src))
      (engine (normalize text) s0 target,
        (score_translation (normalize text)
          (engine (normalize text) s0 target) target).getD 0, s0)
  refine ⟨_, pre, post, htrans, ?_, hpre, hpost, ?_⟩
  · rw [hcands]
    simp only [List.map_cons]
    exact hsplit
  · intro y hy
    rw [hcands] at hy
    simp only [List.map_cons] at hy
    rw [hsplit] at hy
    rcases List.mem_append.1 hy with hy1 | hy2
    · exact le_of_lt (hpre y hy1)
    · rcases List.mem_cons.1 hy2 with rfl | hy3
      · exact le_refl _
      · exact hpost y hy3

/-- Witness for C7: input `"hi"`, target `"arb_Arab"`, an engine
producing `"ok."` for the English hypothesis and `""` otherwise. -/
theorem c7_stable_argmax_witness :
    ∃ best pre post,
      translate false (fun _ => none)
        (fun _ src _ => if src = "eng_Latn" then ['o', 'k', '.'] else [])
        ['h', 'i'] "arb_Arab" =
        some ⟨best.1, some (analyze_words false (fun _ => none)
          (normalize ['h', 'i'])), some best.2.2, some (pyRound3 best.2.1)⟩ ∧
      (candidateSources (analyze_words false (fun _ => none)
        (normalize ['h', 'i'])).languages_detected).map
        (fun src => ((if src = "eng_Latn" then ['o', 'k', '.'] else []),
          (score_translation (normalize ['h', 'i'])
            (if src = "eng_Latn" then ['o', 'k', '.'] else [])
            "arb_Arab").getD 0, src)) = pre ++ best :: post ∧
      (∀ y ∈ pre, y.2.1 < best.2.1) ∧
      (∀ y ∈ post, y.2.1 ≤ best.2.1) ∧
      (∀ y ∈ (candidateSources (analyze_words false (fun _ => none)
          (normalize ['h', 'i'])).languages_detected).map
          (fun src => ((if src = "eng_Latn" then ['o', 'k', '.'] else []),
            (score_translation (normalize ['h', 'i'])
              (if src = "eng_Latn" then ['o', 'k', '.'] else [])
              "arb_Arab").getD 0, src)),
        y.2.1 ≤ best.2.1) :=
  c7_stable_argmax false (fun _ => none)
    (fun _ src _ => if src = "eng_Latn" then ['o', 'k', '.'] else [])
    ['h', 'i'] "arb_Arab" (by decide) (by decide)

end MLT
